import Mathlib

/-!
# Verification of the guess-a-number client/server (chapter 9, item 76)

Shallow embedding of the protocol state machine from
`src/src/char_09/item_76.py`: the wire codec (`Connection.send` /
`Connection.receive`), the server session (`ServerSession`) with its
command-dispatch loop, and the client session (`ClientSession`) with its
warmer/colder decision rule, in both the thread-based and the
coroutine-based variants.

Modelling conventions:
* The byte stream of a connection is a `List Char`.
* `random.randint(lower, upper)` is replaced by a deterministic stand-in:
  a stream `draws : Nat → Int` together with a position counter; the
  contract that draws lie inside `[lower, upper]` becomes an explicit
  hypothesis of the theorems that need it.
* The unbounded rejection-sampling loop inside `next_guess` is given
  explicit fuel; returning `none` means the loop has not produced a value
  within that much fuel.
* Python exceptions become an explicit `PyError` result.
* `math.fabs(number - secret)` is modelled as the exact integer absolute
  value `|number - secret|` (exact for all distances below 2^53, which in
  particular covers every game the demo drivers play).
-/

namespace Item76

/-- Python-level failures that the sessions can raise. -/
inductive PyError where
  /-- `UnknownCommandError(command)` raised by the dispatch loop. -/
  | unknownCommand (command : String)
  /-- `TypeError`, e.g. `random.randint(None, None)`. -/
  | typeError
  /-- `ValueError`, e.g. `int("x")`. -/
  | valueError
  /-- `IndexError`, e.g. `[][-1]`. -/
  | indexError
  /-- The custom `EOFError` raised by `Connection.receive`. -/
  | eofError
deriving DecidableEq, Repr

/-- The five client decisions (the string constants `WARMER`, `COLDER`,
`SAME`, `UNSURE`, `CORRECT` of the source). -/
inductive Decision where
  | warmer
  | colder
  | same
  | unsure
  | correct
deriving DecidableEq, Repr

/-- The wire string of a decision, as interpolated into `REPORT {decision}`. -/
def decisionString : Decision → String
  | .warmer => "Warmer"
  | .colder => "Colder"
  | .same => "Same"
  | .unsure => "Unsure"
  | .correct => "Correct"

/-- State of a `ServerSession`: fields set by `clear_state` / `set_params`
and mutated by `next_guess` / `send_number` / `receive_report`. -/
structure ServerState where
  lower : Option Int
  upper : Option Int
  secret : Option Int
  guesses : List Int
deriving DecidableEq, Repr

/-- `ServerSession.clear_state`: reset every field. -/
def clear_state : ServerState :=
  { lower := none, upper := none, secret := none, guesses := [] }

/-- `ServerSession.set_params`: `clear_state()` followed by setting the
bounds (the `int(...)` conversion happens at dispatch). -/
def set_params (lo hi : Int) (_s : ServerState) : ServerState :=
  { lower := some lo, upper := some hi, secret := none, guesses := [] }

/-- The `while True:` rejection-sampling loop of `ServerSession.next_guess`,
with the random draws replaced by the stream `draws` read from position
`pos`, and explicit fuel.  `none` means the loop did not finish within the
given fuel. -/
def rejectionLoop (draws : Nat → Int) (guesses : List Int) :
    Nat → Nat → Option (Int × Nat)
  | _, 0 => none
  | pos, fuel + 1 =>
    let guess := draws pos
    if guess ∈ guesses then rejectionLoop draws guesses (pos + 1) fuel
    else some (guess, pos + 1)

/-- `ServerSession.next_guess`: return the pinned secret if there is one,
otherwise rejection-sample a fresh draw.  When the bounds are still `None`,
`random.randint(None, None)` raises a `TypeError`. -/
def next_guess (draws : Nat → Int) (fuel : Nat) (s : ServerState) (pos : Nat) :
    Except PyError (Option (Int × Nat)) :=
  match s.secret with
  | some v => .ok (some (v, pos))
  | none =>
    match s.lower, s.upper with
    | some _, some _ => .ok (rejectionLoop draws s.guesses pos fuel)
    | _, _ => .error .typeError

/-- `ServerSession.send_number`: take the next guess, append it to
`guesses`, and produce it as the reply (the reply itself is returned to the
caller rather than written to a socket). -/
def send_number (draws : Nat → Int) (fuel : Nat) (s : ServerState) (pos : Nat) :
    Except PyError (Option (ServerState × Int × Nat)) :=
  match next_guess draws fuel s pos with
  | .error e => .error e
  | .ok none => .ok none
  | .ok (some (guess, pos')) =>
    .ok (some ({ s with guesses := s.guesses ++ [guess] }, guess, pos'))

/-- `ServerSession.receive_report`: read the last guess (`guesses[-1]`,
an `IndexError` on an empty history) and pin it as the secret when the
reported decision is the string `"Correct"`. -/
def receive_report (decision : String) (s : ServerState) :
    Except PyError ServerState :=
  match s.guesses.getLast? with
  | none => .error .indexError
  | some last =>
    .ok (if decision = "Correct" then { s with secret := some last } else s)

/-- `file.readline()` on a byte stream: everything up to and including the
first newline (or the whole stream when no newline remains), together with
the unread remainder. -/
def readline : List Char → List Char × List Char
  | [] => ([], [])
  | c :: cs =>
    if c = '\n' then ([c], cs)
    else
      let r := readline cs
      (c :: r.1, r.2)

namespace Connection

/-- `Connection.send`: append a newline and emit the bytes. -/
def send (command : String) : List Char :=
  (command ++ "\n").data

/-- `Connection.receive`: `readline()`, raise `EOFError` on an empty read,
otherwise drop the final byte (`line[:-1]`) and decode. -/
def receive (stream : List Char) : Except PyError (String × List Char) :=
  let r := readline stream
  if r.1 = [] then .error .eofError
  else .ok (String.mk r.1.dropLast, r.2)

end Connection

/-- Python's `str.split(" ")` on the characters of the command line:
segments between single spaces, empty segments included. -/
def splitSpaces : List Char → List (List Char)
  | [] => [[]]
  | c :: cs =>
    if c = ' ' then [] :: splitSpaces cs
    else
      match splitSpaces cs with
      | [] => [[c]]
      | w :: ws => (c :: w) :: ws

/-- Accumulator loop for decimal digit parsing. -/
def parseNatAux : List Char → Nat → Option Nat
  | [], acc => some acc
  | c :: cs, acc =>
    if c.isDigit then parseNatAux cs (acc * 10 + (c.toNat - 48))
    else none

/-- Parse a nonempty run of decimal digits. -/
def parseNat (cs : List Char) : Option Nat :=
  if cs = [] then none else parseNatAux cs 0

/-- Python's `int(...)` on the decimal strings the protocol exchanges:
optional sign, then digits; anything else raises `ValueError` (`none`). -/
def parseInt : List Char → Option Int
  | '-' :: cs => (parseNat cs).map (fun n => -(n : Int))
  | '+' :: cs => (parseNat cs).map (fun n => (n : Int))
  | cs => (parseNat cs).map (fun n => (n : Int))

/-- The four shapes recognised by the `match command.split(" ")` dispatch
of `ServerSession.loop`. -/
inductive Command where
  | params (lo hi : List Char)
  | number
  | report (decision : List Char)
  | clear
deriving DecidableEq, Repr

/-- The pattern match of `ServerSession.loop` on `command.split(" ")`;
`none` is the fall-through `case _` that raises `UnknownCommandError`. -/
def parseCommand (command : String) : Option Command :=
  match splitSpaces command.data with
  | [w1, w2, w3] => if w1 = "PARAMS".data then some (.params w2 w3) else none
  | [w1] =>
    if w1 = "NUMBER".data then some .number
    else if w1 = "CLEAR".data then some .clear
    else none
  | [w1, w2] => if w1 = "REPORT".data then some (.report w2) else none
  | _ => none

/-- Sequencing for fallible, possibly fuel-exhausted computations. -/
def exBind {α β : Type} (x : Except PyError (Option α))
    (f : α → Except PyError (Option β)) : Except PyError (Option β) :=
  match x with
  | .error e => .error e
  | .ok none => .ok none
  | .ok (some a) => f a

@[simp] theorem exBind_error {α β : Type} (e : PyError)
    (f : α → Except PyError (Option β)) :
    exBind (.error e) f = .error e := rfl

@[simp] theorem exBind_ok_none {α β : Type}
    (f : α → Except PyError (Option β)) :
    exBind (.ok none) f = .ok none := rfl

@[simp] theorem exBind_ok_some {α β : Type} (a : α)
    (f : α → Except PyError (Option β)) :
    exBind (.ok (some a)) f = f a := rfl

/-- Execute one dispatched command on the server state.  The result carries
the new state, the list of numbers written back to the client, and the new
position in the draw stream. -/
def execCommand (draws : Nat → Int) (fuel : Nat) :
    Command → ServerState → Nat →
    Except PyError (Option (ServerState × List Int × Nat))
  | .params lo hi, s, pos =>
    match parseInt lo, parseInt hi with
    | some l, some u => .ok (some (set_params l u s, [], pos))
    | _, _ => .error .valueError
  | .number, s, pos =>
    exBind (send_number draws fuel s pos) fun r =>
      .ok (some (r.1, [r.2.1], r.2.2))
  | .report d, s, pos =>
    match receive_report (String.mk d) s with
    | .error e => .error e
    | .ok s' => .ok (some (s', [], pos))
  | .clear, _, pos => .ok (some (clear_state, [], pos))

/-- Dispatch one received command line: parse it and execute it, raising
`UnknownCommandError` on the fall-through case. -/
def applyCommand (draws : Nat → Int) (fuel : Nat) (command : String)
    (s : ServerState) (pos : Nat) :
    Except PyError (Option (ServerState × List Int × Nat)) :=
  match parseCommand command with
  | none => .error (.unknownCommand command)
  | some cmd => execCommand draws fuel cmd s pos

/-- Run a list of command lines through the server session, accumulating
every number the session sends back. -/
def runCommands (draws : Nat → Int) (fuel : Nat) :
    List String → ServerState → Nat →
    Except PyError (Option (ServerState × List Int × Nat))
  | [], s, pos => .ok (some (s, [], pos))
  | c :: cs, s, pos =>
    exBind (applyCommand draws fuel c s pos) fun r =>
      exBind (runCommands draws fuel cs r.1 r.2.2) fun r' =>
        .ok (some (r'.1, r.2.1 ++ r'.2.1, r'.2.2))

/-- `ServerSession.loop`: `while command := self.receive():` — receive a
line, exit normally when it is empty, dispatch it otherwise.  The first
`Nat` argument is fuel for the outer loop; a normal exit returns the final
state, the unread remainder of the stream, the numbers sent, and the final
draw position. -/
def loop (draws : Nat → Int) (fuel : Nat) :
    Nat → List Char → ServerState → Nat →
    Except PyError (Option (ServerState × List Char × List Int × Nat))
  | 0, _, _, _ => .ok none
  | n + 1, stream, s, pos =>
    match Connection.receive stream with
    | .error e => .error e
    | .ok (command, rest) =>
      if command = "" then .ok (some (s, rest, [], pos))
      else
        exBind (applyCommand draws fuel command s pos) fun r =>
          exBind (loop draws fuel n rest r.1 r.2.2) fun r' =>
            .ok (some (r'.1, r'.2.1, r.2.1 ++ r'.2.2.1, r'.2.2.2))

/-- State of a `ClientSession`: the target number and the distance of the
previous guess. -/
structure ClientState where
  secret : Int
  last_distance : Option Int
deriving DecidableEq, Repr

/-- `ClientSession.report_outcome`: compute the new distance, pick the
first matching decision, and update `last_distance`. -/
def report_outcome (number : Int) (c : ClientState) : Decision × ClientState :=
  let new_distance : Int := |number - c.secret|
  let decision :=
    if new_distance = 0 then
      Decision.correct
    else
      match c.last_distance with
      | none => Decision.unsure
      | some last =>
        if new_distance < last then Decision.warmer
        else if new_distance > last then Decision.colder
        else Decision.same
  (decision, { c with last_distance := some new_distance })

/-- One NUMBER/REPORT round of `ClientSession.__iter__` driven against a
`ServerSession`: the server answers the `NUMBER` request via `send_number`,
the client computes its decision, and the server processes the resulting
`REPORT` line via `receive_report`. -/
def gameStep (draws : Nat → Int) (fuel : Nat) (srv : ServerState)
    (cli : ClientState) (pos : Nat) :
    Except PyError (Option ((Int × Decision) × ServerState × ClientState × Nat)) :=
  exBind (send_number draws fuel srv pos) fun r =>
    let d := report_outcome r.2.1 cli
    match receive_report (decisionString d.1) r.1 with
    | .error e => .error e
    | .ok srv2 => .ok (some ((r.2.1, d.1), srv2, d.2, r.2.2))

/-- `ClientSession.__iter__` driven to completion against a server session:
repeat rounds, stop right after a round whose decision is `Correct`.  The
first `Nat` argument bounds the number of rounds. -/
def runGame (draws : Nat → Int) (fuel : Nat) :
    Nat → ServerState → ClientState → Nat →
    Except PyError (Option (List (Int × Decision) × ServerState × ClientState × Nat))
  | 0, _, _, _ => .ok none
  | n + 1, srv, cli, pos =>
    exBind (gameStep draws fuel srv cli pos) fun r =>
      if r.1.2 = Decision.correct then .ok (some ([r.1], r.2.1, r.2.2.1, r.2.2.2))
      else
        exBind (runGame draws fuel n r.2.1 r.2.2.1 r.2.2.2) fun r' =>
          .ok (some (r.1 :: r'.1, r'.2.1, r'.2.2.1, r'.2.2.2))

/-!
## The coroutine-based variant

`AsyncServerSession` and `AsyncClientSession` duplicate the session logic
of the thread-based classes verbatim; only the transport differs (awaited
stream reads/writes instead of blocking socket calls), which the embedding
abstracts away.  Each method is embedded separately below from the async
source text so that the transport-equivalence claim compares two genuine
definitions.
-/

/-- The `while True:` loop of `AsyncServerSession.next_guess`. -/
def async_rejectionLoop (draws : Nat → Int) (guesses : List Int) :
    Nat → Nat → Option (Int × Nat)
  | _, 0 => none
  | pos, fuel + 1 =>
    let guess := draws pos
    if guess ∈ guesses then async_rejectionLoop draws guesses (pos + 1) fuel
    else some (guess, pos + 1)

/-- `AsyncServerSession.next_guess`. -/
def async_next_guess (draws : Nat → Int) (fuel : Nat) (s : ServerState)
    (pos : Nat) : Except PyError (Option (Int × Nat)) :=
  match s.secret with
  | some v => .ok (some (v, pos))
  | none =>
    match s.lower, s.upper with
    | some _, some _ => .ok (async_rejectionLoop draws s.guesses pos fuel)
    | _, _ => .error .typeError

/-- `AsyncServerSession.send_number`. -/
def async_send_number (draws : Nat → Int) (fuel : Nat) (s : ServerState)
    (pos : Nat) : Except PyError (Option (ServerState × Int × Nat)) :=
  match async_next_guess draws fuel s pos with
  | .error e => .error e
  | .ok none => .ok none
  | .ok (some (guess, pos')) =>
    .ok (some ({ s with guesses := s.guesses ++ [guess] }, guess, pos'))

/-- `AsyncServerSession.receive_report`. -/
def async_receive_report (decision : String) (s : ServerState) :
    Except PyError ServerState :=
  match s.guesses.getLast? with
  | none => .error .indexError
  | some last =>
    .ok (if decision = "Correct" then { s with secret := some last } else s)

/-- `AsyncClientSession.report_outcome`. -/
def async_report_outcome (number : Int) (c : ClientState) :
    Decision × ClientState :=
  let new_distance : Int := |number - c.secret|
  let decision :=
    if new_distance = 0 then
      Decision.correct
    else
      match c.last_distance with
      | none => Decision.unsure
      | some last =>
        if new_distance < last then Decision.warmer
        else if new_distance > last then Decision.colder
        else Decision.same
  (decision, { c with last_distance := some new_distance })

/-- One round of `AsyncClientSession.__aiter__` against an
`AsyncServerSession`. -/
def asyncGameStep (draws : Nat → Int) (fuel : Nat) (srv : ServerState)
    (cli : ClientState) (pos : Nat) :
    Except PyError (Option ((Int × Decision) × ServerState × ClientState × Nat)) :=
  exBind (async_send_number draws fuel srv pos) fun r =>
    let d := async_report_outcome r.2.1 cli
    match async_receive_report (decisionString d.1) r.1 with
    | .error e => .error e
    | .ok srv2 => .ok (some ((r.2.1, d.1), srv2, d.2, r.2.2))

/-- `AsyncClientSession.__aiter__` driven to completion against an
`AsyncServerSession`. -/
def asyncRunGame (draws : Nat → Int) (fuel : Nat) :
    Nat → ServerState → ClientState → Nat →
    Except PyError (Option (List (Int × Decision) × ServerState × ClientState × Nat))
  | 0, _, _, _ => .ok none
  | n + 1, srv, cli, pos =>
    exBind (asyncGameStep draws fuel srv cli pos) fun r =>
      if r.1.2 = Decision.correct then .ok (some ([r.1], r.2.1, r.2.2.1, r.2.2.2))
      else
        exBind (asyncRunGame draws fuel n r.2.1 r.2.2.1 r.2.2.2) fun r' =>
          .ok (some (r.1 :: r'.1, r'.2.1, r'.2.2.1, r'.2.2.2))

/-- Does a result carry an `UnknownCommandError`? -/
def isUnknownCmdError {α : Type} : Except PyError α → Bool
  | .error (.unknownCommand _) => true
  | _ => false

/-- The §4.3 decision rule exactly as the spec states it, for comparison
with `report_outcome`: five rules evaluated in order on the new distance
and the previous distance. -/
def specDecisionRule (new_distance : Int) (last_distance : Option Int) :
    Decision :=
  if new_distance = 0 then
    Decision.correct
  else
    match last_distance with
    | none => Decision.unsure
    | some last =>
      if new_distance < last then Decision.warmer
      else if new_distance > last then Decision.colder
      else Decision.same

/-!
## Basic lemmas about the wire codec
-/

theorem readline_fst_eq_nil {stream : List Char} :
    (readline stream).1 = [] ↔ stream = [] := by
  cases stream with
  | nil => simp [readline]
  | cons c cs =>
    simp only [readline]
    split <;> simp

theorem readline_cons (c : Char) (cs : List Char) :
    readline (c :: cs) =
      if c = '\n' then ([c], cs)
      else (c :: (readline cs).1, (readline cs).2) := rfl

theorem readline_append {l : List Char} (h : '\n' ∉ l) (rest : List Char) :
    readline (l ++ '\n' :: rest) = (l ++ ['\n'], rest) := by
  induction l with
  | nil => simp [readline]
  | cons c cs ih =>
    simp only [List.mem_cons, not_or] at h
    rw [List.cons_append, readline_cons, if_neg (fun hh => h.1 hh.symm), ih h.2]
    rfl

theorem send_data (command : String) :
    Connection.send command = command.data ++ ['\n'] := rfl

/-!
## Claim theorems: client decision rule (C2, C6)
-/

/-- C2: for every client state and guessed number, `report_outcome`
computes the new distance as the absolute difference to the secret,
returns the first matching decision of the §4.3 ordered rule, and updates
`last_distance` to the new distance; the coroutine variant
`async_report_outcome` computes the same function. -/
theorem c2_report_outcome_follows_rule (number : Int) (c : ClientState) :
    report_outcome number c =
      (specDecisionRule (|number - c.secret|) c.last_distance,
        { secret := c.secret, last_distance := some (|number - c.secret|) }) ∧
    async_report_outcome number c = report_outcome number c := by
  obtain ⟨s, ld⟩ := c
  exact ⟨by cases ld <;> rfl, rfl⟩

/-- C6 counterexample: on the very first call of a game (no previous
distance) with `number = secret`, `report_outcome` returns `Correct`, not
`Unsure` — so it does not return `Unsure` exactly on the first call. -/
theorem c6_counterexample :
    (ClientState.mk 3 none).last_distance = none ∧
    (report_outcome 3 (ClientState.mk 3 none)).1 = Decision.correct ∧
    (report_outcome 3 (ClientState.mk 3 none)).1 ≠ Decision.unsure := by
  refine ⟨rfl, by decide, by decide⟩

theorem report_outcome_fst_none (number s : Int) :
    (report_outcome number ⟨s, none⟩).1 =
      if |number - s| = 0 then Decision.correct else Decision.unsure := rfl

theorem report_outcome_fst_some (number s last : Int) :
    (report_outcome number ⟨s, some last⟩).1 =
      if |number - s| = 0 then Decision.correct
      else if |number - s| < last then Decision.warmer
      else if |number - s| > last then Decision.colder
      else Decision.same := rfl

theorem report_outcome_snd (number s : Int) (ld : Option Int) :
    (report_outcome number ⟨s, ld⟩).2 = ⟨s, some (|number - s|)⟩ := rfl

theorem report_outcome_ne_unsure_of_some (m s last : Int) :
    (report_outcome m ⟨s, some last⟩).1 ≠ Decision.unsure := by
  rw [report_outcome_fst_some]
  split
  · exact fun hc => Decision.noConfusion hc
  · split
    · exact fun hc => Decision.noConfusion hc
    · split
      · exact fun hc => Decision.noConfusion hc
      · exact fun hc => Decision.noConfusion hc

theorem report_outcome_ne_correct_of_ne {number s : Int} (last : Int)
    (h : ¬|number - s| = 0) :
    (report_outcome number ⟨s, some last⟩).1 ≠ Decision.correct := by
  rw [report_outcome_fst_some, if_neg h]
  split
  · exact fun hc => Decision.noConfusion hc
  · split
    · exact fun hc => Decision.noConfusion hc
    · exact fun hc => Decision.noConfusion hc

/-- C6 (amended): `report_outcome` returns `Unsure` iff it is the first
call of the game and `number ≠ secret`; a call following any other call
never returns `Unsure`; and it returns `Correct` iff `number = secret`. -/
theorem c6_decision_boundary (number : Int) (c : ClientState) :
    ((report_outcome number c).1 = Decision.correct ↔ number = c.secret) ∧
    ((report_outcome number c).1 = Decision.unsure ↔
      c.last_distance = none ∧ number ≠ c.secret) ∧
    ∀ m : Int, (report_outcome m (report_outcome number c).2).1 ≠ Decision.unsure := by
  obtain ⟨s, ld⟩ := c
  have habs : (|number - s| = 0) ↔ number = s := by
    rw [abs_eq_zero, sub_eq_zero]
  refine ⟨?_, ?_, ?_⟩
  · cases ld with
    | none =>
      rw [report_outcome_fst_none]
      split
      · next h => exact ⟨fun _ => habs.mp h, fun _ => rfl⟩
      · next h =>
        exact ⟨fun hc => absurd hc (Decision.noConfusion ·),
          fun hc => absurd (habs.mpr hc) h⟩
    | some last =>
      by_cases h : |number - s| = 0
      · rw [report_outcome_fst_some, if_pos h]
        exact ⟨fun _ => habs.mp h, fun _ => rfl⟩
      · exact ⟨fun hc => absurd hc (report_outcome_ne_correct_of_ne last h),
          fun hc => absurd (habs.mpr hc) h⟩
  · cases ld with
    | none =>
      rw [report_outcome_fst_none]
      split
      · next h =>
        exact ⟨fun hc => Decision.noConfusion hc,
          fun hc => absurd (habs.mp h) hc.2⟩
      · next h =>
        exact ⟨fun _ => ⟨rfl, fun hc => absurd (habs.mpr hc) h⟩, fun _ => rfl⟩
    | some last =>
      exact ⟨fun hc => absurd hc (report_outcome_ne_unsure_of_some number s last),
        fun hc => Option.noConfusion hc.1⟩
  · intro m
    rw [report_outcome_snd]
    exact report_outcome_ne_unsure_of_some m s _

/-!
## Claim theorems: dispatch of NUMBER in the fresh state (C7)
-/

/-- C7 counterexample: in the fresh (never-configured) session state,
`NUMBER` is dispatched normally — the `match` arm for `["NUMBER"]` fires —
and the failure is a `TypeError` from `random.randint(None, None)`, not an
`UnknownCommandError`. -/
theorem c7_counterexample :
    applyCommand (fun _ => 0) 1 "NUMBER" clear_state 0 = .error .typeError ∧
    isUnknownCmdError (applyCommand (fun _ => 0) 1 "NUMBER" clear_state 0) = false :=
  ⟨rfl, rfl⟩

/-- C7 (amended): for every draw stream, fuel and stream position,
processing a `NUMBER` command in a session whose bounds were never set
fails — but with a `TypeError` (from `random.randint(None, None)`), not
with an unknown-command error. -/
theorem c7_number_in_fresh_state (draws : Nat → Int) (fuel pos : Nat) :
    applyCommand draws fuel "NUMBER" clear_state pos = .error .typeError := rfl

/-!
## Claim theorems: wire codec (C8) and blank-line loop exit (C10)
-/

/-- C8 counterexample: when the stream ends mid-line without a newline,
`receive` does not return the line it read (`"ABC"`): `line[:-1]` drops
the final data character and yields `"AB"`. -/
theorem c8_counterexample :
    Connection.receive ("ABC".data) = .ok ("AB", []) ∧ ("AB" : String) ≠ "ABC" :=
  ⟨rfl, by decide⟩

/-- C8 (amended): `receive` raises `EOFError` iff the stream yields zero
bytes; `send` appends exactly one newline, and a `receive` after a `send`
returns the sent command unchanged for every command containing no newline
(when the line ends without a newline, the final data character is dropped
instead of a newline). -/
theorem c8_receive_send (stream : List Char) (command : String)
    (rest : List Char) (h : '\n' ∉ command.data) :
    (Connection.receive stream = .error .eofError ↔ stream = []) ∧
    Connection.receive (Connection.send command ++ rest) = .ok (command, rest) := by
  constructor
  · rw [← readline_fst_eq_nil]
    simp only [Connection.receive]
    split
    · simp_all
    · simp_all
  · rw [send_data, List.append_assoc, List.singleton_append]
    simp only [Connection.receive, readline_append h]
    rw [if_neg (by simp)]
    simp only [List.dropLast_concat]

/-- C8 witness at a concrete input. -/
theorem c8_receive_send_witness :
    ('\n' ∉ "NUMBER".data) ∧
    ((Connection.receive [] = .error .eofError ↔ ([] : List Char) = []) ∧
      Connection.receive (Connection.send "NUMBER" ++ []) = .ok ("NUMBER", [])) :=
  ⟨by decide, c8_receive_send [] "NUMBER" [] (by decide)⟩

/-- C10: when the next line on the stream is empty (the peer sent a bare
newline), the command-dispatch loop exits normally: no command is
dispatched, no error is raised, the state is unchanged and the rest of the
stream is left unread. -/
theorem c10_blank_line_exits_loop (draws : Nat → Int) (fuel n : Nat)
    (rest : List Char) (s : ServerState) (pos : Nat) :
    loop draws fuel (n + 1) ('\n' :: rest) s pos = .ok (some (s, rest, [], pos)) := rfl

/-!
## Equation lemmas for the fueled functions
-/

theorem rejectionLoop_zero (draws : Nat → Int) (guesses : List Int) (pos : Nat) :
    rejectionLoop draws guesses pos 0 = none := rfl

theorem rejectionLoop_succ (draws : Nat → Int) (guesses : List Int)
    (pos fuel : Nat) :
    rejectionLoop draws guesses pos (fuel + 1) =
      if draws pos ∈ guesses then rejectionLoop draws guesses (pos + 1) fuel
      else some (draws pos, pos + 1) := rfl

theorem async_rejectionLoop_succ (draws : Nat → Int) (guesses : List Int)
    (pos fuel : Nat) :
    async_rejectionLoop draws guesses pos (fuel + 1) =
      if draws pos ∈ guesses then async_rejectionLoop draws guesses (pos + 1) fuel
      else some (draws pos, pos + 1) := rfl

theorem next_guess_unpinned (draws : Nat → Int) (fuel : Nat) (lo hi : Int)
    (guesses : List Int) (pos : Nat) :
    next_guess draws fuel ⟨some lo, some hi, none, guesses⟩ pos =
      .ok (rejectionLoop draws guesses pos fuel) := rfl

theorem runCommands_nil (draws : Nat → Int) (fuel : Nat) (s : ServerState)
    (pos : Nat) : runCommands draws fuel [] s pos = .ok (some (s, [], pos)) := rfl

theorem runCommands_cons (draws : Nat → Int) (fuel : Nat) (c : String)
    (cs : List String) (s : ServerState) (pos : Nat) :
    runCommands draws fuel (c :: cs) s pos =
      exBind (applyCommand draws fuel c s pos) fun r =>
        exBind (runCommands draws fuel cs r.1 r.2.2) fun r' =>
          .ok (some (r'.1, r.2.1 ++ r'.2.1, r'.2.2)) := rfl

theorem applyCommand_number (draws : Nat → Int) (fuel : Nat) (s : ServerState)
    (pos : Nat) :
    applyCommand draws fuel "NUMBER" s pos =
      exBind (send_number draws fuel s pos) fun r =>
        .ok (some (r.1, [r.2.1], r.2.2)) := rfl

theorem runGame_succ (draws : Nat → Int) (fuel n : Nat) (srv : ServerState)
    (cli : ClientState) (pos : Nat) :
    runGame draws fuel (n + 1) srv cli pos =
      exBind (gameStep draws fuel srv cli pos) fun r =>
        if r.1.2 = Decision.correct then
          .ok (some ([r.1], r.2.1, r.2.2.1, r.2.2.2))
        else
          exBind (runGame draws fuel n r.2.1 r.2.2.1 r.2.2.2) fun r' =>
            .ok (some (r.1 :: r'.1, r'.2.1, r'.2.2.1, r'.2.2.2)) := rfl

theorem asyncRunGame_succ (draws : Nat → Int) (fuel n : Nat)
    (srv : ServerState) (cli : ClientState) (pos : Nat) :
    asyncRunGame draws fuel (n + 1) srv cli pos =
      exBind (asyncGameStep draws fuel srv cli pos) fun r =>
        if r.1.2 = Decision.correct then
          .ok (some ([r.1], r.2.1, r.2.2.1, r.2.2.2))
        else
          exBind (asyncRunGame draws fuel n r.2.1 r.2.2.1 r.2.2.2) fun r' =>
            .ok (some (r.1 :: r'.1, r'.2.1, r'.2.2.1, r'.2.2.2)) := rfl

/-!
## C3: the thread-based and coroutine-based sessions compute identically
-/

theorem async_rejectionLoop_eq (draws : Nat → Int) (guesses : List Int) :
    ∀ (fuel pos : Nat),
      async_rejectionLoop draws guesses pos fuel = rejectionLoop draws guesses pos fuel := by
  intro fuel
  induction fuel with
  | zero => intro pos; rfl
  | succ f ih =>
    intro pos
    rw [rejectionLoop_succ, async_rejectionLoop_succ, ih (pos + 1)]

theorem async_next_guess_eq (draws : Nat → Int) (fuel : Nat) (s : ServerState)
    (pos : Nat) : async_next_guess draws fuel s pos = next_guess draws fuel s pos := by
  obtain ⟨lo, hi, sec, g⟩ := s
  cases sec with
  | some v => rfl
  | none =>
    cases lo <;> cases hi <;>
      simp [next_guess, async_next_guess, async_rejectionLoop_eq]

theorem async_send_number_eq (draws : Nat → Int) (fuel : Nat) (s : ServerState)
    (pos : Nat) : async_send_number draws fuel s pos = send_number draws fuel s pos := by
  simp only [send_number, async_send_number, async_next_guess_eq]

theorem async_receive_report_eq : async_receive_report = receive_report := rfl

theorem async_report_outcome_eq : async_report_outcome = report_outcome := rfl

theorem asyncGameStep_eq (draws : Nat → Int) (fuel : Nat) (srv : ServerState)
    (cli : ClientState) (pos : Nat) :
    asyncGameStep draws fuel srv cli pos = gameStep draws fuel srv cli pos := by
  simp only [gameStep, asyncGameStep, async_send_number_eq,
    async_receive_report_eq, async_report_outcome_eq]

/-- C3: for every input state, every fuel bound and every fixed draw
stream (the deterministic stand-in for randomness), the thread-based
session pair and the coroutine-based session pair produce identical
`(number, decision)` sequences (indeed identical full results). -/
theorem c3_transport_equivalence (draws : Nat → Int) (fuel : Nat) :
    ∀ (n : Nat) (srv : ServerState) (cli : ClientState) (pos : Nat),
      asyncRunGame draws fuel n srv cli pos = runGame draws fuel n srv cli pos := by
  intro n
  induction n with
  | zero => intro srv cli pos; rfl
  | succ m ih =>
    intro srv cli pos
    rw [runGame_succ, asyncRunGame_succ, asyncGameStep_eq]
    refine congrArg _ (funext fun r => ?_)
    rw [ih]

/-!
## Properties of the rejection-sampling loop
-/

/-- A value produced by the rejection loop is not among the current
guesses, and is one of the draws. -/
theorem rejectionLoop_mem (draws : Nat → Int) (guesses : List Int) :
    ∀ (fuel pos : Nat) (g : Int) (pos' : Nat),
      rejectionLoop draws guesses pos fuel = some (g, pos') →
      g ∉ guesses ∧ ∃ m, draws m = g := by
  intro fuel
  induction fuel with
  | zero => intro pos g pos' h; exact Option.noConfusion h
  | succ f ih =>
    intro pos g pos' h
    rw [rejectionLoop_succ] at h
    by_cases hm : draws pos ∈ guesses
    · rw [if_pos hm] at h
      exact ih (pos + 1) g pos' h
    · rw [if_neg hm] at h
      obtain ⟨h1, h2⟩ := Prod.mk.inj (Option.some.inj h)
      exact ⟨h1 ▸ hm, pos, h1⟩

/-- Once some later draw is fresh, the rejection loop succeeds with enough
fuel. -/
theorem rejectionLoop_isSome_of (draws : Nat → Int) (guesses : List Int) :
    ∀ (k pos : Nat), draws (pos + k) ∉ guesses →
      (rejectionLoop draws guesses pos (k + 1)).isSome := by
  intro k
  induction k with
  | zero =>
    intro pos h
    rw [rejectionLoop_succ, if_neg (by simpa using h)]
    rfl
  | succ m ih =>
    intro pos h
    rw [rejectionLoop_succ]
    by_cases hm : draws pos ∈ guesses
    · rw [if_pos hm]
      refine ih (pos + 1) ?_
      have he : pos + 1 + m = pos + (m + 1) := by omega
      rw [he]
      exact h
    · rw [if_neg hm]; rfl

/-- More fuel never changes a successful rejection-loop result. -/
theorem rejectionLoop_mono (draws : Nat → Int) (guesses : List Int) :
    ∀ (f1 f2 pos : Nat) (r : Int × Nat), f1 ≤ f2 →
      rejectionLoop draws guesses pos f1 = some r →
      rejectionLoop draws guesses pos f2 = some r := by
  intro f1
  induction f1 with
  | zero => intro f2 pos r _ h; exact Option.noConfusion h
  | succ f ih =>
    intro f2 pos r hle h
    obtain ⟨f2', rfl⟩ : ∃ f2', f2 = f2' + 1 :=
      ⟨f2 - 1, by omega⟩
    rw [rejectionLoop_succ] at h ⊢
    by_cases hm : draws pos ∈ guesses
    · rw [if_pos hm] at h ⊢
      exact ih f2' (pos + 1) r (by omega) h
    · rw [if_neg hm] at h ⊢
      exact h

/-!
## C5: distinct numbers within one pre-lock PARAMS-to-CLEAR cycle
-/

theorem send_number_unpinned_none (draws : Nat → Int) (fuel : Nat)
    (lo hi : Int) (guesses : List Int) (pos : Nat)
    (h : rejectionLoop draws guesses pos fuel = none) :
    send_number draws fuel ⟨some lo, some hi, none, guesses⟩ pos = .ok none := by
  simp only [send_number, next_guess_unpinned, h]

theorem send_number_unpinned_some (draws : Nat → Int) (fuel : Nat)
    (lo hi : Int) (guesses : List Int) (pos : Nat) (g : Int) (pos' : Nat)
    (h : rejectionLoop draws guesses pos fuel = some (g, pos')) :
    send_number draws fuel ⟨some lo, some hi, none, guesses⟩ pos =
      .ok (some (⟨some lo, some hi, none, guesses ++ [g]⟩, g, pos')) := by
  simp only [send_number, next_guess_unpinned, h]

/-- Invariant run for a block of `NUMBER` commands in a pre-lock session:
the final guess history is the old one extended by the outputs, every
output is fresh with respect to the starting history, and the outputs are
pairwise distinct. -/
theorem numbers_run_aux (draws : Nat → Int) (fuel : Nat) (lo hi : Int) :
    ∀ (n : Nat) (guesses : List Int) (pos : Nat) (s' : ServerState)
      (outs : List Int) (pos' : Nat),
      runCommands draws fuel (List.replicate n "NUMBER")
          ⟨some lo, some hi, none, guesses⟩ pos = .ok (some (s', outs, pos')) →
      s' = ⟨some lo, some hi, none, guesses ++ outs⟩ ∧
        (∀ g ∈ outs, g ∉ guesses) ∧ outs.Nodup := by
  intro n
  induction n with
  | zero =>
    intro guesses pos s' outs pos' h
    rw [List.replicate_zero, runCommands_nil] at h
    simp only [Except.ok.injEq, Option.some.injEq, Prod.mk.injEq] at h
    obtain ⟨h1, h2, h3⟩ := h
    subst h1
    subst h2
    subst h3
    simp
  | succ m ih =>
    intro guesses pos s' outs pos' h
    rw [List.replicate_succ, runCommands_cons, applyCommand_number] at h
    cases hr : rejectionLoop draws guesses pos fuel with
    | none =>
      rw [send_number_unpinned_none draws fuel lo hi guesses pos hr] at h
      simp only [exBind_ok_none] at h
      exact Option.noConfusion (Except.ok.inj h)
    | some r =>
      obtain ⟨g, pos1⟩ := r
      rw [send_number_unpinned_some draws fuel lo hi guesses pos g pos1 hr] at h
      simp only [exBind_ok_some] at h
      cases hrun : runCommands draws fuel (List.replicate m "NUMBER")
          ⟨some lo, some hi, none, guesses ++ [g]⟩ pos1 with
      | error e => rw [hrun] at h; exact Except.noConfusion h
      | ok o =>
        cases o with
        | none =>
          rw [hrun] at h
          simp only [exBind_ok_none] at h
          exact Option.noConfusion (Except.ok.inj h)
        | some r' =>
          obtain ⟨s'', outs', pos''⟩ := r'
          rw [hrun] at h
          simp only [exBind_ok_some, Except.ok.injEq, Option.some.injEq,
            Prod.mk.injEq, List.singleton_append] at h
          obtain ⟨h1, h2, h3⟩ := h
          obtain ⟨hfresh, -⟩ := rejectionLoop_mem draws guesses fuel pos g pos1 hr
          obtain ⟨ihs, ihfresh, ihnodup⟩ := ih (guesses ++ [g]) pos1 s'' outs' pos'' hrun
          subst h1
          subst h2
          subst h3
          refine ⟨?_, ?_, ?_⟩
          · rw [ihs]
            simp
          · intro x hx
            rcases List.mem_cons.mp hx with rfl | hx'
            · exact hfresh
            · intro hmem
              exact ihfresh x hx' (List.mem_append_left [g] hmem)
          · rw [List.nodup_cons]
            refine ⟨fun hg => ?_, ihnodup⟩
            exact ihfresh g hg (List.mem_append_right guesses (by simp))

/-- C5: within one PARAMS-to-CLEAR cycle, before any `REPORT Correct` pins
the secret, a sequence of `NUMBER` commands never returns the same integer
twice: the returned numbers are pairwise distinct. -/
theorem c5_no_repeat_numbers (draws : Nat → Int) (fuel : Nat) (lo hi : Int)
    (s0 : ServerState) (n pos : Nat) (s' : ServerState) (outs : List Int)
    (pos' : Nat)
    (h : runCommands draws fuel (List.replicate n "NUMBER")
        (set_params lo hi s0) pos = .ok (some (s', outs, pos'))) :
    outs.Nodup :=
  (numbers_run_aux draws fuel lo hi n [] pos s' outs pos' h).2.2

/-- C5 witness at a concrete input. -/
theorem c5_no_repeat_numbers_witness :
    runCommands (fun n => (n : Int)) 5 (List.replicate 2 "NUMBER")
        (set_params 0 5 clear_state) 0
      = .ok (some (⟨some 0, some 5, none, [0, 1]⟩, [0, 1], 2)) ∧
    ([0, 1] : List Int).Nodup :=
  ⟨rfl, c5_no_repeat_numbers (fun n => (n : Int)) 5 0 5 clear_state 2 0
    ⟨some 0, some 5, none, [0, 1]⟩ [0, 1] 2 rfl⟩

/-!
## C4: pinning survives everything except CLEAR and PARAMS
-/

/-- Does this command line parse as `CLEAR` or as a `PARAMS` command (the
two commands whose handlers reset `secret`)? -/
def clearsOrParams (c : String) : Bool :=
  match parseCommand c with
  | some (.params _ _) => true
  | some .clear => true
  | _ => false

/-- Invariant run: while no `CLEAR`/`PARAMS` command occurs, a pinned
secret `v` that is also the last guess stays pinned, stays the last guess,
and is the only number ever sent. -/
theorem pinned_run_aux (draws : Nat → Int) (fuel : Nat) (v : Int) :
    ∀ (cmds : List String) (s : ServerState) (pos : Nat) (s' : ServerState)
      (outs : List Int) (pos' : Nat),
      s.secret = some v → s.guesses.getLast? = some v →
      (∀ c ∈ cmds, clearsOrParams c = false) →
      runCommands draws fuel cmds s pos = .ok (some (s', outs, pos')) →
      (∀ g ∈ outs, g = v) ∧ s'.secret = some v ∧ s'.guesses.getLast? = some v := by
  intro cmds
  induction cmds with
  | nil =>
    intro s pos s' outs pos' hsec hlast _ h
    rw [runCommands_nil] at h
    simp only [Except.ok.injEq, Option.some.injEq, Prod.mk.injEq] at h
    obtain ⟨h1, h2, h3⟩ := h
    subst h1
    subst h2
    exact ⟨by simp, hsec, hlast⟩
  | cons c cs ih =>
    intro s pos s' outs pos' hsec hlast hcp h
    rw [runCommands_cons] at h
    have hcp0 : clearsOrParams c = false := hcp c (List.mem_cons_self c cs)
    have hcps : ∀ c' ∈ cs, clearsOrParams c' = false :=
      fun c' hc' => hcp c' (List.mem_cons_of_mem c hc')
    cases hp : parseCommand c with
    | none =>
      simp only [applyCommand, hp, exBind_error] at h
      exact Except.noConfusion h
    | some cmd =>
      cases cmd with
      | clear => simp [clearsOrParams, hp] at hcp0
      | params a b => simp [clearsOrParams, hp] at hcp0
      | number =>
        have hsn : send_number draws fuel s pos =
            .ok (some ({ s with guesses := s.guesses ++ [v] }, v, pos)) := by
          simp only [send_number, next_guess, hsec]
        simp only [applyCommand, hp, execCommand, hsn, exBind_ok_some] at h
        cases hrun : runCommands draws fuel cs
            { s with guesses := s.guesses ++ [v] } pos with
        | error e => rw [hrun] at h; exact Except.noConfusion h
        | ok o =>
          cases o with
          | none =>
            rw [hrun] at h
            simp only [exBind_ok_none] at h
            exact Option.noConfusion (Except.ok.inj h)
          | some r' =>
            obtain ⟨s'', outs', pos''⟩ := r'
            rw [hrun] at h
            simp only [exBind_ok_some, Except.ok.injEq, Option.some.injEq,
              Prod.mk.injEq, List.singleton_append] at h
            obtain ⟨h1, h2, h3⟩ := h
            subst h1
            subst h2
            obtain ⟨ihouts, ihsec, ihlast⟩ :=
              ih { s with guesses := s.guesses ++ [v] } pos s'' outs' pos''
                hsec (by rw [show ({ s with guesses := s.guesses ++ [v] } :
                  ServerState).guesses = s.guesses ++ [v] from rfl,
                  List.getLast?_concat]) hcps hrun
            refine ⟨?_, ihsec, ihlast⟩
            intro g hg
            rcases List.mem_cons.mp hg with rfl | hg'
            · rfl
            · exact ihouts g hg'
      | report d =>
        have hs1 : receive_report (String.mk d) s =
            .ok (if String.mk d = "Correct" then { s with secret := some v }
              else s) := by
          simp only [receive_report, hlast]
        simp only [applyCommand, hp, execCommand, hs1, exBind_ok_some] at h
        cases hrun : runCommands draws fuel cs
            (if String.mk d = "Correct" then { s with secret := some v }
              else s) pos with
        | error e => rw [hrun] at h; exact Except.noConfusion h
        | ok o =>
          cases o with
          | none =>
            rw [hrun] at h
            simp only [exBind_ok_none] at h
            exact Option.noConfusion (Except.ok.inj h)
          | some r' =>
            obtain ⟨s'', outs', pos''⟩ := r'
            rw [hrun] at h
            simp only [exBind_ok_some, Except.ok.injEq, Option.some.injEq,
              Prod.mk.injEq, List.nil_append] at h
            obtain ⟨h1, h2, h3⟩ := h
            subst h1
            subst h2
            have hsec1 : (if String.mk d = "Correct"
                then { s with secret := some v } else s).secret = some v := by
              split
              · rfl
              · exact hsec
            have hlast1 : (if String.mk d = "Correct"
                then { s with secret := some v } else s).guesses.getLast?
                = some v := by
              split
              · exact hlast
              · exact hlast
            exact ih _ pos s'' outs' pos'' hsec1 hlast1 hcps hrun

/-- C4 (amended): once a `REPORT Correct` is processed, pinning the secret
to the last guess, every subsequent `NUMBER` in the session returns that
same integer until a `CLEAR` **or a `PARAMS`** command is processed
(`set_params` also calls `clear_state` and therefore unpins). -/
theorem c4_pinned_until_clear_or_params (draws : Nat → Int) (fuel : Nat)
    (s0 s1 : ServerState) (v : Int) (cmds : List String) (pos : Nat)
    (s' : ServerState) (outs : List Int) (pos' : Nat)
    (hlast : s0.guesses.getLast? = some v)
    (hrep : receive_report "Correct" s0 = .ok s1)
    (hcp : ∀ c ∈ cmds, clearsOrParams c = false)
    (hrun : runCommands draws fuel cmds s1 pos = .ok (some (s', outs, pos'))) :
    ∀ g ∈ outs, g = v := by
  have hs1 : s1 = { s0 with secret := some v } := by
    simp only [receive_report, hlast, if_pos rfl] at hrep
    exact (Except.ok.inj hrep).symm
  subst hs1
  exact (pinned_run_aux draws fuel v cmds { s0 with secret := some v } pos
    s' outs pos' rfl hlast hcp hrun).1

/-- C4 witness at a concrete input. -/
theorem c4_pinned_witness :
    (⟨some 1, some 5, none, [3]⟩ : ServerState).guesses.getLast? = some 3 ∧
    receive_report "Correct" ⟨some 1, some 5, none, [3]⟩
      = .ok ⟨some 1, some 5, some 3, [3]⟩ ∧
    (∀ c ∈ ["NUMBER", "NUMBER"], clearsOrParams c = false) ∧
    runCommands (fun _ => 0) 1 ["NUMBER", "NUMBER"] ⟨some 1, some 5, some 3, [3]⟩ 0
      = .ok (some (⟨some 1, some 5, some 3, [3, 3, 3]⟩, [3, 3], 0)) ∧
    (∀ g ∈ ([3, 3] : List Int), g = 3) :=
  ⟨rfl, rfl, by decide, rfl,
    c4_pinned_until_clear_or_params (fun _ => 0) 1 ⟨some 1, some 5, none, [3]⟩
      ⟨some 1, some 5, some 3, [3]⟩ 3 ["NUMBER", "NUMBER"] 0
      ⟨some 1, some 5, some 3, [3, 3, 3]⟩ [3, 3] 0 rfl rfl (by decide) rfl⟩

/-- C4 counterexample: a `PARAMS` command (which the claim does not
except) also unpins the secret.  After `REPORT Correct` pins `1`, a
`PARAMS 1 5` followed by `NUMBER` returns `2 ≠ 1`, with no `CLEAR`
processed anywhere in the sequence. -/
theorem c4_counterexample :
    runCommands (fun n => if n = 0 then 1 else 2) 3
      ["PARAMS 1 5", "NUMBER", "REPORT Correct", "PARAMS 1 5", "NUMBER"]
      clear_state 0
      = .ok (some (⟨some 1, some 5, none, [2]⟩, [1, 2], 2)) ∧
    (∀ c ∈ ["PARAMS 1 5", "NUMBER", "REPORT Correct", "PARAMS 1 5", "NUMBER"],
      parseCommand c ≠ some Command.clear) ∧
    (2 : Int) ≠ 1 :=
  ⟨rfl, by decide, by decide⟩

/-!
## C9: termination of `next_guess`
-/

/-- C9: for an unpinned session whose draws respect the `randint` contract
(always inside `[lo, hi]`) and are fair (every value of the range keeps
being drawn), `next_guess` terminates — succeeds for some fuel — iff some
integer of `[lo, hi]` is absent from `guesses`; in particular, when
`guesses` covers the whole range, no amount of fuel makes the
rejection-sampling loop return. -/
theorem c9_next_guess_terminates_iff (draws : Nat → Int) (lo hi : Int)
    (guesses : List Int) (pos : Nat)
    (hin : ∀ n, lo ≤ draws n ∧ draws n ≤ hi)
    (hfair : ∀ (p : Nat) (x : Int), lo ≤ x → x ≤ hi → ∃ k, draws (p + k) = x) :
    (∃ fuel r, next_guess draws fuel ⟨some lo, some hi, none, guesses⟩ pos
        = .ok (some r)) ↔
      ∃ x, lo ≤ x ∧ x ≤ hi ∧ x ∉ guesses := by
  constructor
  · rintro ⟨fuel, r, h⟩
    rw [next_guess_unpinned] at h
    have h' : rejectionLoop draws guesses pos fuel = some r := Except.ok.inj h
    obtain ⟨g, pos'⟩ := r
    obtain ⟨hnot, m, hm⟩ := rejectionLoop_mem draws guesses fuel pos g pos' h'
    exact ⟨g, hm ▸ (hin m).1, hm ▸ (hin m).2, hnot⟩
  · rintro ⟨x, hx1, hx2, hx3⟩
    obtain ⟨k, hk⟩ := hfair pos x hx1 hx2
    have hs := rejectionLoop_isSome_of draws guesses k pos (hk ▸ hx3)
    obtain ⟨r, hr⟩ := Option.isSome_iff_exists.mp hs
    exact ⟨k + 1, r, by rw [next_guess_unpinned, hr]⟩

/-- C9 witness at a concrete input. -/
theorem c9_witness :
    (∃ fuel r, next_guess (fun _ => (0 : Int)) fuel ⟨some 0, some 0, none, []⟩ 0
        = .ok (some r)) ↔
      ∃ x : Int, 0 ≤ x ∧ x ≤ 0 ∧ x ∉ ([] : List Int) :=
  c9_next_guess_terminates_iff (fun _ => 0) 0 0 [] 0
    (fun _ => ⟨le_refl 0, le_refl 0⟩)
    (fun p x h1 h2 => ⟨0, by show (0 : Int) = x; omega⟩)

/-!
## C1: machinery — fuel monotonicity, measure, decision facts
-/

theorem next_guess_mono (draws : Nat → Int) (f1 f2 : Nat) (s : ServerState)
    (pos : Nat) (r : Int × Nat) (h12 : f1 ≤ f2)
    (h : next_guess draws f1 s pos = .ok (some r)) :
    next_guess draws f2 s pos = .ok (some r) := by
  obtain ⟨lo, hi, sec, g⟩ := s
  cases sec with
  | some v => exact h
  | none =>
    cases lo with
    | none => exact Except.noConfusion h
    | some lo' =>
      cases hi with
      | none => exact Except.noConfusion h
      | some hi' =>
        rw [next_guess_unpinned] at h ⊢
        rw [rejectionLoop_mono draws g f1 f2 pos r h12 (Except.ok.inj h)]

theorem send_number_mono (draws : Nat → Int) (f1 f2 : Nat) (s : ServerState)
    (pos : Nat) (r : ServerState × Int × Nat) (h12 : f1 ≤ f2)
    (h : send_number draws f1 s pos = .ok (some r)) :
    send_number draws f2 s pos = .ok (some r) := by
  cases hng : next_guess draws f1 s pos with
  | error e =>
    simp only [send_number, hng] at h
    exact Except.noConfusion h
  | ok o =>
    cases o with
    | none =>
      simp only [send_number, hng] at h
      exact Option.noConfusion (Except.ok.inj h)
    | some gp =>
      obtain ⟨g, pos'⟩ := gp
      simp only [send_number, hng] at h
      simp only [send_number, next_guess_mono draws f1 f2 s pos (g, pos') h12 hng]
      exact h

theorem gameStep_mono (draws : Nat → Int) (f1 f2 : Nat) (srv : ServerState)
    (cli : ClientState) (pos : Nat)
    (r : (Int × Decision) × ServerState × ClientState × Nat) (h12 : f1 ≤ f2)
    (h : gameStep draws f1 srv cli pos = .ok (some r)) :
    gameStep draws f2 srv cli pos = .ok (some r) := by
  cases hsn : send_number draws f1 srv pos with
  | error e =>
    simp only [gameStep, hsn, exBind_error] at h
    exact Except.noConfusion h
  | ok o =>
    cases o with
    | none =>
      simp only [gameStep, hsn, exBind_ok_none] at h
      exact Option.noConfusion (Except.ok.inj h)
    | some r1 =>
      simp only [gameStep, hsn, exBind_ok_some] at h
      simp only [gameStep,
        send_number_mono draws f1 f2 srv pos r1 h12 hsn, exBind_ok_some]
      exact h

theorem runGame_mono (draws : Nat → Int) (f1 f2 : Nat) (h12 : f1 ≤ f2) :
    ∀ (n : Nat) (srv : ServerState) (cli : ClientState) (pos : Nat)
      (R : List (Int × Decision) × ServerState × ClientState × Nat),
      runGame draws f1 n srv cli pos = .ok (some R) →
      runGame draws f2 n srv cli pos = .ok (some R) := by
  intro n
  induction n with
  | zero => intro srv cli pos R h; exact Option.noConfusion (Except.ok.inj h)
  | succ m ih =>
    intro srv cli pos R h
    rw [runGame_succ] at h ⊢
    cases hgs : gameStep draws f1 srv cli pos with
    | error e => rw [hgs] at h; exact Except.noConfusion h
    | ok o =>
      cases o with
      | none =>
        rw [hgs] at h
        simp only [exBind_ok_none] at h
        exact Option.noConfusion (Except.ok.inj h)
      | some r =>
        rw [hgs] at h
        rw [gameStep_mono draws f1 f2 srv cli pos r h12 hgs]
        simp only [exBind_ok_some] at h ⊢
        by_cases hd : r.1.2 = Decision.correct
        · rw [if_pos hd] at h ⊢
          exact h
        · rw [if_neg hd] at h ⊢
          cases hrg : runGame draws f1 m r.2.1 r.2.2.1 r.2.2.2 with
          | error e => rw [hrg] at h; exact Except.noConfusion h
          | ok o' =>
            cases o' with
            | none =>
              rw [hrg] at h
              simp only [exBind_ok_none] at h
              exact Option.noConfusion (Except.ok.inj h)
            | some R' =>
              rw [hrg] at h
              rw [ih r.2.1 r.2.2.1 r.2.2.2 R' hrg]
              exact h

/-- Count of integers of `[lo, hi]` not yet present in the guess history:
the decreasing measure of the game. -/
def unguessed (lo hi : Int) (guesses : List Int) : Nat :=
  ((Finset.Icc lo hi).filter (fun x => x ∉ guesses)).card

theorem unguessed_nil (lo hi : Int) :
    unguessed lo hi [] = (Finset.Icc lo hi).card := by
  unfold unguessed
  rw [Finset.filter_true_of_mem]
  intro x _
  simp

theorem unguessed_pos (lo hi x : Int) (guesses : List Int) (h1 : lo ≤ x)
    (h2 : x ≤ hi) (h3 : x ∉ guesses) : 0 < unguessed lo hi guesses :=
  Finset.card_pos.mpr
    ⟨x, Finset.mem_filter.mpr ⟨Finset.mem_Icc.mpr ⟨h1, h2⟩, h3⟩⟩

theorem unguessed_append_lt (lo hi : Int) (guesses : List Int) (g : Int)
    (h1 : lo ≤ g) (h2 : g ≤ hi) (h3 : g ∉ guesses) :
    unguessed lo hi (guesses ++ [g]) < unguessed lo hi guesses := by
  apply Finset.card_lt_card
  have hsub : (Finset.Icc lo hi).filter (fun x => x ∉ guesses ++ [g]) ⊆
      (Finset.Icc lo hi).filter (fun x => x ∉ guesses) := by
    intro x hx
    obtain ⟨hxi, hxg⟩ := Finset.mem_filter.mp hx
    exact Finset.mem_filter.mpr
      ⟨hxi, fun hmem => hxg (List.mem_append_left _ hmem)⟩
  refine (Finset.ssubset_iff_of_subset hsub).mpr
    ⟨g, Finset.mem_filter.mpr ⟨Finset.mem_Icc.mpr ⟨h1, h2⟩, h3⟩,
      fun hmem => (Finset.mem_filter.mp hmem).2 ?_⟩
  simp

theorem decisionString_eq_correct (d : Decision) :
    decisionString d = "Correct" ↔ d = Decision.correct := by
  cases d <;> decide

theorem report_outcome_correct_iff (number s : Int) (ld : Option Int) :
    (report_outcome number ⟨s, ld⟩).1 = Decision.correct ↔ number = s := by
  have habs : (|number - s| = 0) ↔ number = s := by
    rw [abs_eq_zero, sub_eq_zero]
  cases ld with
  | none =>
    rw [report_outcome_fst_none]
    split
    · next h => exact iff_of_true rfl (habs.mp h)
    · next h =>
      exact iff_of_false (fun hc => Decision.noConfusion hc)
        (fun hc => h (habs.mpr hc))
  | some last =>
    by_cases h : |number - s| = 0
    · rw [report_outcome_fst_some, if_pos h]
      exact iff_of_true rfl (habs.mp h)
    · exact iff_of_false (report_outcome_ne_correct_of_ne last h)
        (fun hc => h (habs.mpr hc))

/-- One round of the game in an unpinned state, when the rejection loop
yields `(g, pos1)` and the client's decision is `Correct`: the server pins
`g`. -/
theorem gameStep_of_loop_correct (draws : Nat → Int) (fuel : Nat)
    (lo hi sec : Int) (ld : Option Int) (guesses : List Int) (pos : Nat)
    (g : Int) (pos1 : Nat)
    (hr : rejectionLoop draws guesses pos fuel = some (g, pos1))
    (hd : (report_outcome g ⟨sec, ld⟩).1 = Decision.correct) :
    gameStep draws fuel ⟨some lo, some hi, none, guesses⟩ ⟨sec, ld⟩ pos =
      .ok (some ((g, Decision.correct),
        ⟨some lo, some hi, some g, guesses ++ [g]⟩,
        (report_outcome g ⟨sec, ld⟩).2, pos1)) := by
  simp only [gameStep,
    send_number_unpinned_some draws fuel lo hi guesses pos g pos1 hr,
    exBind_ok_some]
  rw [hd]
  have hrr : receive_report "Correct"
      (⟨some lo, some hi, none, guesses ++ [g]⟩ : ServerState) =
      .ok ⟨some lo, some hi, some g, guesses ++ [g]⟩ := by
    simp [receive_report, List.getLast?_concat]
  rw [show decisionString Decision.correct = "Correct" from rfl, hrr]

/-- One round of the game in an unpinned state, when the rejection loop
yields `(g, pos1)` and the client's decision is not `Correct`: the server
state only records the new guess. -/
theorem gameStep_of_loop_noncorrect (draws : Nat → Int) (fuel : Nat)
    (lo hi sec : Int) (ld : Option Int) (guesses : List Int) (pos : Nat)
    (g : Int) (pos1 : Nat)
    (hr : rejectionLoop draws guesses pos fuel = some (g, pos1))
    (hd : (report_outcome g ⟨sec, ld⟩).1 ≠ Decision.correct) :
    gameStep draws fuel ⟨some lo, some hi, none, guesses⟩ ⟨sec, ld⟩ pos =
      .ok (some ((g, (report_outcome g ⟨sec, ld⟩).1),
        ⟨some lo, some hi, none, guesses ++ [g]⟩,
        (report_outcome g ⟨sec, ld⟩).2, pos1)) := by
  simp only [gameStep,
    send_number_unpinned_some draws fuel lo hi guesses pos g pos1 hr,
    exBind_ok_some]
  have hds : decisionString (report_outcome g ⟨sec, ld⟩).1 ≠ "Correct" :=
    fun hc => hd ((decisionString_eq_correct _).mp hc)
  have hrr : receive_report (decisionString (report_outcome g ⟨sec, ld⟩).1)
      (⟨some lo, some hi, none, guesses ++ [g]⟩ : ServerState) =
      .ok ⟨some lo, some hi, none, guesses ++ [g]⟩ := by
    simp only [receive_report, List.getLast?_concat]
    rw [if_neg hds]
  rw [hrr]

/-- Induction core for C1: from any unpinned state whose guess history
misses the secret, the game finishes within `unguessed`-many rounds and
the last round reports `Correct` on the secret itself. -/
theorem runGame_aux (draws : Nat → Int) (lo hi secret : Int)
    (hlo : lo ≤ secret) (hhi : secret ≤ hi)
    (hin : ∀ n, lo ≤ draws n ∧ draws n ≤ hi)
    (hfair : ∀ (p : Nat) (x : Int), lo ≤ x → x ≤ hi → ∃ k, draws (p + k) = x) :
    ∀ (n : Nat) (guesses : List Int) (ld : Option Int) (pos : Nat),
      secret ∉ guesses →
      unguessed lo hi guesses ≤ n →
      ∃ (fuel : Nat) (trace : List (Int × Decision)) (srv : ServerState)
        (cli : ClientState) (pos' : Nat),
        runGame draws fuel n ⟨some lo, some hi, none, guesses⟩ ⟨secret, ld⟩ pos
          = .ok (some (trace, srv, cli, pos')) ∧
        trace.length ≤ n ∧ trace ≠ [] ∧
        trace.getLast? = some (secret, Decision.correct) := by
  intro n
  induction n with
  | zero =>
    intro guesses ld pos hns hcount
    exact absurd hcount
      (by have := unguessed_pos lo hi secret guesses hlo hhi hns; omega)
  | succ m ih =>
    intro guesses ld pos hns hcount
    obtain ⟨k, hk⟩ := hfair pos secret hlo hhi
    obtain ⟨⟨g, pos1⟩, hr⟩ := Option.isSome_iff_exists.mp
      (rejectionLoop_isSome_of draws guesses k pos (hk ▸ hns))
    obtain ⟨hgfresh, m', hm'⟩ :=
      rejectionLoop_mem draws guesses (k + 1) pos g pos1 hr
    have hglo : lo ≤ g := hm' ▸ (hin m').1
    have hghi : g ≤ hi := hm' ▸ (hin m').2
    by_cases hcase : g = secret
    · subst hcase
      have hd : (report_outcome g ⟨g, ld⟩).1 = Decision.correct :=
        (report_outcome_correct_iff g g ld).mpr rfl
      refine ⟨k + 1, [(g, Decision.correct)],
        ⟨some lo, some hi, some g, guesses ++ [g]⟩,
        (report_outcome g ⟨g, ld⟩).2, pos1, ?_, by simp, by simp, by simp⟩
      rw [runGame_succ,
        gameStep_of_loop_correct draws (k + 1) lo hi g ld guesses pos g pos1 hr hd,
        exBind_ok_some, if_pos rfl]
    · have hd : (report_outcome g ⟨secret, ld⟩).1 ≠ Decision.correct :=
        fun hc => hcase ((report_outcome_correct_iff g secret ld).mp hc)
      have hns1 : secret ∉ guesses ++ [g] := by
        intro hmem
        rcases List.mem_append.mp hmem with hmem' | hmem'
        · exact hns hmem'
        · exact hcase ((List.mem_singleton.mp hmem').symm)
      have hcount1 : unguessed lo hi (guesses ++ [g]) ≤ m := by
        have := unguessed_append_lt lo hi guesses g hglo hghi hgfresh
        omega
      obtain ⟨fuel2, trace2, srv2, cli2, pos2, hrun2, hlen2, hne2, hlast2⟩ :=
        ih (guesses ++ [g]) (some (|g - secret|)) pos1 hns1 hcount1
      refine ⟨max (k + 1) fuel2, (g, (report_outcome g ⟨secret, ld⟩).1) :: trace2,
        srv2, cli2, pos2, ?_, by simpa using hlen2, by simp, ?_⟩
      · have hrM : rejectionLoop draws guesses pos (max (k + 1) fuel2)
            = some (g, pos1) :=
          rejectionLoop_mono draws guesses (k + 1) (max (k + 1) fuel2) pos
            (g, pos1) (le_max_left _ _) hr
        rw [runGame_succ,
          gameStep_of_loop_noncorrect draws (max (k + 1) fuel2) lo hi secret ld
            guesses pos g pos1 hrM hd,
          exBind_ok_some, if_neg hd]
        have hrun2' := runGame_mono draws fuel2 (max (k + 1) fuel2)
          (le_max_right _ _) m ⟨some lo, some hi, none, guesses ++ [g]⟩
          ⟨secret, some (|g - secret|)⟩ pos1 (trace2, srv2, cli2, pos2) hrun2
        rw [show (report_outcome g ⟨secret, ld⟩).2
            = ⟨secret, some (|g - secret|)⟩ from rfl, hrun2', exBind_ok_some]
      · cases trace2 with
        | nil => exact absurd rfl hne2
        | cons b t => rw [List.getLast?_cons_cons]; exact hlast2

/-- C1: for every `lower ≤ secret ≤ upper` and every draw stream obeying
the `randint` contract and fairness, driving the client session against
the server session terminates — for some rejection-loop fuel — within
`(upper - lower + 1)` NUMBER/REPORT rounds, and the decision of the final
round is `Correct` (on the secret itself). -/
theorem c1_protocol_round_trip (lower upper secret : Int) (draws : Nat → Int)
    (hlo : lower ≤ secret) (hhi : secret ≤ upper)
    (hin : ∀ n, lower ≤ draws n ∧ draws n ≤ upper)
    (hfair : ∀ (p : Nat) (x : Int), lower ≤ x → x ≤ upper →
      ∃ k, draws (p + k) = x) :
    ∃ (fuel : Nat) (trace : List (Int × Decision)) (srv : ServerState)
      (cli : ClientState) (pos' : Nat),
      runGame draws fuel ((upper - lower + 1).toNat)
          (set_params lower upper clear_state) ⟨secret, none⟩ 0
        = .ok (some (trace, srv, cli, pos')) ∧
      trace.length ≤ (upper - lower + 1).toNat ∧ trace ≠ [] ∧
      trace.getLast? = some (secret, Decision.correct) := by
  have hstart : unguessed lower upper [] ≤ (upper - lower + 1).toNat := by
    rw [unguessed_nil, Int.card_Icc]
    omega
  exact runGame_aux draws lower upper secret hlo hhi hin hfair
    ((upper - lower + 1).toNat) [] none 0 (by simp) hstart

/-- C1 witness at a concrete input. -/
theorem c1_protocol_round_trip_witness :
    ((0 : Int) ≤ 0) ∧
    ∃ (fuel : Nat) (trace : List (Int × Decision)) (srv : ServerState)
      (cli : ClientState) (pos' : Nat),
      runGame (fun _ => (0 : Int)) fuel (((0 : Int) - 0 + 1).toNat)
          (set_params 0 0 clear_state) ⟨0, none⟩ 0
        = .ok (some (trace, srv, cli, pos')) ∧
      trace.length ≤ ((0 : Int) - 0 + 1).toNat ∧ trace ≠ [] ∧
      trace.getLast? = some (0, Decision.correct) :=
  ⟨le_refl 0, c1_protocol_round_trip 0 0 0 (fun _ => 0) (le_refl 0) (le_refl 0)
    (fun _ => ⟨le_refl 0, le_refl 0⟩)
    (fun p x h1 h2 => ⟨0, by show (0 : Int) = x; omega⟩)⟩

end Item76
